import Mathlib

/-!
# Verification of jaekwon/go-modeldb

Shallow embedding of the repository's four source files (adapter.go,
error.go, modeldb.go) and proofs about the claims of its specification.

Go strings are modelled as Lean `String` / `List Char` (all inputs of
interest are ASCII, where Go's byte-wise and rune-wise views coincide).
Go's `error` values are modelled by the inductive `GoError`; `nil` errors
by `Option GoError`.
-/

namespace ModelDB

/-! ## adapter.go — placeholder translator

`phGrammar` is a PEG: `S = OTHER ((PH / STR) OTHER)*` with
`OTHER = [^'?]*`, `PH = '?'`, `STR = ' (\\ . / [^'])* '`.
Repetition is possessive (greedy, no backtracking), alternation is
ordered. The captures are the matched substrings, collected into a list.
We model the grammar by a direct recursive-descent parser over `List Char`,
with a fuel argument bounding the number of `(PH / STR) OTHER` repetitions
(each repetition consumes at least one character, so fuel = input length
always suffices). `Match` is modelled as requiring full consumption of the
input; an input the grammar cannot consume entirely (e.g. an unterminated
string literal) is a parse failure, modelled by `none` (Go: `panic`).
-/

/-- A character belonging to an `OTHER` span: `NegSet("'?")`. -/
def isOther (c : Char) : Bool := c ≠ '\'' && c ≠ '?'

/-- Body of a `STR` literal after the opening quote:
`(Seq(Char('\\'), Any(1)) / NegSet("'"))* Char('\'')`, possessive.
The Bool flag records a pending escape: after a backslash the next
character is consumed unconditionally (the `Any(1)` of the grammar; a
backslash with nothing after it makes the literal unterminated either
way, exactly as in the grammar where the dangling backslash is consumed
by `NegSet("'")` and the closing quote is then missing). Returns the body
characters (escapes included) and the remainder after the closing quote,
or `none` when the literal is unterminated. -/
def scanStrBody : Bool → List Char → Option (List Char × List Char)
  | false, [] => none
  | true, [] => none
  | true, d :: rest => (scanStrBody false rest).map (fun p => (d :: p.1, p.2))
  | false, c :: rest =>
    if c = '\'' then some ([], rest)
    else if c = '\\' then (scanStrBody true rest).map (fun p => (c :: p.1, p.2))
    else (scanStrBody false rest).map (fun p => (c :: p.1, p.2))

/-- The `((PH / STR) OTHER)*` part of the grammar, fueled. The input always
starts right after a maximal `OTHER` span, so a non-empty input begins with
`?` or `'`; anything else cannot be consumed. Produces the list of captured
spans (`Csimple` captures, as strings of characters). -/
def parseTailF : Nat → List Char → Option (List (List Char))
  | _, [] => some []
  | 0, _ :: _ => none
  | g + 1, c :: rest =>
    if c = '?' then
      (parseTailF g (rest.dropWhile isOther)).map
        (fun ss => ['?'] :: rest.takeWhile isOther :: ss)
    else if c = '\'' then
      match scanStrBody false rest with
      | none => none
      | some (body, rest2) =>
        (parseTailF g (rest2.dropWhile isOther)).map
          (fun ss => ('\'' :: body ++ ['\'']) :: rest2.takeWhile isOther :: ss)
    else none

/-- The whole grammar `S`: a leading `OTHER` span, then the fueled tail. -/
def parseSpansF (g : Nat) (cs : List Char) : Option (List (List Char)) :=
  (parseTailF g (cs.dropWhile isOther)).map (fun ss => cs.takeWhile isOther :: ss)

/-- `Match(phGrammar, q)`: the capture list of the parse, `none` on parse
failure. Fuel `cs.length` suffices because every tail repetition consumes
at least one character. -/
def matchPH (cs : List Char) : Option (List (List Char)) :=
  parseSpansF cs.length cs

/-- `fmt.Sprintf("$%v", index)` as a character list. -/
def phToken (idx : Nat) : List Char := ("$" ++ toString idx).data

/-- The loop body of `ReplacePH`: each capture equal to `"?"` becomes the
indexed token, `index` starting at the given value and incremented once per
placeholder; every other capture is kept verbatim. -/
def replacePHAux : Nat → List (List Char) → List (List Char)
  | _, [] => []
  | idx, s :: rest =>
    if s = ['?'] then phToken idx :: replacePHAux (idx + 1) rest
    else s :: replacePHAux idx rest

/-- `strings.Join(parts, "")` of the rewritten captures, `index` starting
from the given value (the source starts from 1). -/
def replaceJoin (idx : Nat) (items : List (List Char)) : List Char :=
  (replacePHAux idx items).flatten

/-- `ReplacePH`: rewrite the capture list, starting the index at 1. -/
def ReplacePH (items : List (List Char)) : List Char := replaceJoin 1 items

/-- `ConvertPH` on character lists: parse, then `ReplacePH`.
(The global `phConversions` cache is consulted by the source before this,
see `ConvertPHSt`; the source never stores into that cache, so this pure
path is the one that always runs.) -/
def ConvertPHL (cs : List Char) : Option (List Char) :=
  (matchPH cs).map ReplacePH

/-- `ConvertPH` on strings. `none` models the `panic(err)` on parse
failure. -/
def ConvertPH (q : String) : Option String :=
  (ConvertPHL q.data).map (fun l => String.mk l)

/-- `phConversions[q]` : Go map lookup with zero-value `""` default. -/
def lookupCache (cache : List (String × String)) (q : String) : String :=
  match cache.find? (fun p => p.1 == q) with
  | some p => p.2
  | none => ""

/-- `ConvertPH` with the global `phConversions` cache made explicit as a
state argument. Faithful to the source: on a cache hit (a stored value
that is not `""`) the cached value is returned; on a miss the statement is
parsed and rewritten and the result returned — WITHOUT being stored. The
returned cache is unchanged on every path, as in the source, which
contains no write to `phConversions`. -/
def ConvertPHSt (cache : List (String × String)) (q : String) :
    Option (String × List (String × String)) :=
  if lookupCache cache q ≠ "" then some (lookupCache cache q, cache)
  else (ConvertPHL q.data).map (fun r => (String.mk r, cache))

/-! ### Specification-side definitions for the translator -/

/-- Modelled from the spec's words (section 8, first testable property):
replace the k-th placeholder marker, counting left to right and starting
at the given index, by the indexed token, and keep every other character
verbatim in its original position. Used to state the refinement claims
about `ConvertPH`. -/
def naiveConvert : Nat → List Char → List Char
  | _, [] => []
  | idx, c :: rest =>
    if c = '?' then phToken idx ++ naiveConvert (idx + 1) rest
    else c :: naiveConvert idx rest

/-- Number of placeholder markers in a span of characters. -/
def countMarkers (cs : List Char) : Nat := cs.countP (fun c => c = '?')

/-- A properly quoted, possibly backslash-escaped body of a single-quoted
string literal: no unescaped quote, and no dangling escape at the end.
The Bool flag records a pending escape. -/
def wellFormedBodyAux : Bool → List Char → Bool
  | false, [] => true
  | true, [] => false
  | true, _ :: rest => wellFormedBodyAux false rest
  | false, c :: rest =>
    if c = '\'' then false
    else if c = '\\' then wellFormedBodyAux true rest
    else wellFormedBodyAux false rest

/-- A properly quoted, possibly backslash-escaped literal body. -/
def wellFormedBody (body : List Char) : Bool := wellFormedBodyAux false body

/-! ### Lemmas about the translator -/

theorem isOther_of_ne {c : Char} (h1 : c ≠ '\'') (h2 : c ≠ '?') :
    isOther c = true := by
  simp [isOther, h1, h2]

theorem isOther_eq_false {c : Char} (h : isOther c = false) (hq : c ≠ '\'') :
    c = '?' := by
  by_contra hne
  rw [isOther_of_ne hq hne] at h
  simp at h

theorem no_marker_of_takeWhile {cs : List Char} :
    ∀ c ∈ cs.takeWhile isOther, c ≠ '?' := by
  intro c hc hq
  have h := List.mem_takeWhile_imp hc
  subst hq
  simp [isOther] at h

theorem takeWhile_ne_marker {cs : List Char} :
    cs.takeWhile isOther ≠ ['?'] := by
  intro h
  have : '?' ∈ cs.takeWhile isOther := by simp [h]
  exact no_marker_of_takeWhile _ this rfl

theorem naiveConvert_append_no_marker {o : List Char}
    (h : ∀ c ∈ o, c ≠ '?') (idx : Nat) (rest : List Char) :
    naiveConvert idx (o ++ rest) = o ++ naiveConvert idx rest := by
  induction o with
  | nil => rfl
  | cons c t ih =>
    have hc : c ≠ '?' := h c (List.mem_cons_self c t)
    simp only [List.cons_append, naiveConvert, if_neg hc, List.cons.injEq, true_and]
    exact ih (fun x hx => h x (List.mem_cons_of_mem c hx))

theorem naiveConvert_no_marker {o : List Char}
    (h : ∀ c ∈ o, c ≠ '?') (idx : Nat) : naiveConvert idx o = o := by
  have := naiveConvert_append_no_marker h idx []
  simpa [naiveConvert] using this

theorem countMarkers_eq_zero {o : List Char} (h : ∀ c ∈ o, c ≠ '?') :
    countMarkers o = 0 := by
  simp only [countMarkers, List.countP_eq_zero, decide_eq_true_eq]
  exact h

theorem replaceJoin_cons_other {s : List Char} (h : s ≠ ['?'])
    (idx : Nat) (items : List (List Char)) :
    replaceJoin idx (s :: items) = s ++ replaceJoin idx items := by
  simp [replaceJoin, replacePHAux, if_neg h]

theorem replaceJoin_cons_marker (idx : Nat) (items : List (List Char)) :
    replaceJoin idx (['?'] :: items) =
      phToken idx ++ replaceJoin (idx + 1) items := by
  simp [replaceJoin, replacePHAux]

theorem parseTailF_marker (g : Nat) (r : List Char) :
    parseTailF (g + 1) ('?' :: r) =
      (parseSpansF g r).map (fun ss => ['?'] :: ss) := by
  simp [parseTailF, parseSpansF, Option.map_map]
  rfl

theorem parseTailF_str {r body rest2 : List Char}
    (h : scanStrBody false r = some (body, rest2)) (g : Nat) :
    parseTailF (g + 1) ('\'' :: r) =
      (parseSpansF g rest2).map (fun ss => ('\'' :: body ++ ['\'']) :: ss) := by
  simp [parseTailF, parseSpansF, h, Option.map_map]
  rfl

theorem scanStrBody_of_wellFormed :
    ∀ (body : List Char) (esc : Bool), wellFormedBodyAux esc body = true →
      ∀ tail, scanStrBody esc (body ++ '\'' :: tail) = some (body, tail) := by
  intro body
  induction body with
  | nil =>
    intro esc hwf tail
    cases esc with
    | false => simp [scanStrBody]
    | true => simp [wellFormedBodyAux] at hwf
  | cons c rest ih =>
    intro esc hwf tail
    cases esc with
    | true =>
      have hwf2 : wellFormedBodyAux false rest = true := by
        simpa [wellFormedBodyAux] using hwf
      simp [scanStrBody, ih false hwf2 tail]
    | false =>
      by_cases hq : c = '\''
      · subst hq
        simp [wellFormedBodyAux] at hwf
      · by_cases he : c = '\\'
        · subst he
          have hwf2 : wellFormedBodyAux true rest = true := by
            simpa [wellFormedBodyAux] using hwf
          simp [scanStrBody, ih true hwf2 tail]
        · have hwf2 : wellFormedBodyAux false rest = true := by
            simpa [wellFormedBodyAux, hq, he] using hwf
          simp [scanStrBody, hq, he, ih false hwf2 tail]

/-- Core correctness of the translator on quote-free input: the parse
succeeds and rewriting agrees with the character-by-character
specification `naiveConvert`, for any starting index. -/
theorem convert_noquote_aux :
    ∀ (g : Nat) (cs : List Char) (idx : Nat), cs.length ≤ g →
      '\'' ∉ cs →
      (parseSpansF g cs).map (replaceJoin idx) = some (naiveConvert idx cs) := by
  intro g
  induction g with
  | zero =>
    intro cs idx hlen _
    have : cs = [] := List.length_eq_zero.mp (Nat.le_zero.mp hlen)
    subst this
    simp [parseSpansF, parseTailF, replaceJoin, replacePHAux, naiveConvert]
  | succ g ih =>
    intro cs idx hlen hq
    have hsplit : cs.takeWhile isOther ++ cs.dropWhile isOther = cs :=
      List.takeWhile_append_dropWhile isOther cs
    cases hr : cs.dropWhile isOther with
    | nil =>
      have ho : cs.takeWhile isOther = cs := by
        rw [hr] at hsplit
        simpa using hsplit
      have hnm : ∀ c ∈ cs, c ≠ '?' := by
        intro c hc
        exact no_marker_of_takeWhile c (ho ▸ hc)
      simp only [parseSpansF, hr, parseTailF, Option.map_some', ho]
      rw [replaceJoin_cons_other (fun h => takeWhile_ne_marker (ho.symm ▸ h))]
      simp [replaceJoin, replacePHAux, naiveConvert_no_marker hnm]
    | cons c r1 =>
      have hcmem : c ∈ cs := by
        rw [← hsplit, hr]
        exact List.mem_append_right _ (List.mem_cons_self c r1)
      have hcq : c = '?' := by
        apply isOther_eq_false _ (fun h => hq (h ▸ hcmem))
        have := List.head_dropWhile_not isOther cs (by simp [hr])
        simpa [hr] using this
      subst hcq
      have hcs : cs = cs.takeWhile isOther ++ '?' :: r1 := by
        conv_lhs => rw [← hsplit, hr]
      have hr1len : r1.length ≤ g := by
        have := congrArg List.length hcs
        simp only [List.length_append, List.length_cons] at this
        omega
      have hr1q : '\'' ∉ r1 := by
        intro h
        exact hq (hcs ▸ List.mem_append_right _ (List.mem_cons_of_mem _ h))
      have ihr := ih r1 (idx + 1) hr1len hr1q
      rcases Option.map_eq_some'.mp ihr with ⟨ss, hss, hjoin⟩
      have hlhs : parseSpansF (g + 1) cs =
          some (cs.takeWhile isOther :: ['?'] :: ss) := by
        rw [parseSpansF, hr, parseTailF_marker, hss]
        rfl
      rw [hlhs, Option.map_some']
      rw [replaceJoin_cons_other takeWhile_ne_marker, replaceJoin_cons_marker,
        hjoin]
      conv_rhs => rw [hcs]
      rw [naiveConvert_append_no_marker no_marker_of_takeWhile]
      simp [naiveConvert]

/-- C2: for every statement with no quote characters, ConvertPH succeeds
and returns the statement with the k-th placeholder marker (left to
right) replaced by the k-indexed token and every other character
preserved verbatim in place, as expressed by the specification function
`naiveConvert` starting at index 1. -/
theorem convertPH_no_quotes (cs : List Char) (h : '\'' ∉ cs) :
    ConvertPHL cs = some (naiveConvert 1 cs) := by
  have := convert_noquote_aux cs.length cs 1 (Nat.le_refl _) h
  simpa [ConvertPHL, matchPH, ReplacePH] using this

theorem isOther_quote : isOther '\'' = false := by decide

theorem isOther_marker : isOther '?' = false := by decide

theorem lit_ne_marker {body : List Char} :
    ('\'' :: body ++ ['\''] : List Char) ≠ ['?'] := by
  intro h
  rw [List.cons_append] at h
  injection h with h1 _
  exact absurd h1 (by decide)

/-- Core correctness of the translator on a statement made of a quote-free
prefix, one well-formed single-quoted literal, and a quote-free suffix:
the literal's exact text is copied verbatim (markers inside it are not
rewritten), while the markers of the prefix and suffix are rewritten with
consecutive indices that skip the literal. -/
theorem convert_literal_aux :
    ∀ (g : Nat) (s1 body s2 : List Char) (idx : Nat),
      (s1 ++ '\'' :: body ++ '\'' :: s2).length ≤ g →
      '\'' ∉ s1 → '\'' ∉ s2 → wellFormedBody body = true →
      (parseSpansF g (s1 ++ '\'' :: body ++ '\'' :: s2)).map (replaceJoin idx) =
        some (naiveConvert idx s1 ++ '\'' :: body ++
          '\'' :: naiveConvert (idx + countMarkers s1) s2) := by
  intro g
  induction g with
  | zero =>
    intro s1 body s2 idx hlen _ _ _
    exfalso
    simp only [List.length_append, List.length_cons, Nat.le_zero] at hlen
    omega
  | succ g ih =>
    intro s1 body s2 idx hlen h1 h2 hwf
    by_cases hm : '?' ∈ s1
    · -- the prefix still contains a marker: consume one OTHER span and one PH
      have hd : s1.dropWhile isOther ≠ [] := by
        intro hnil
        have : s1.takeWhile isOther = s1 := by
          have := List.takeWhile_append_dropWhile isOther s1
          rw [hnil] at this
          simpa using this
        exact no_marker_of_takeWhile '?' (this ▸ hm) rfl
      rcases hne : s1.dropWhile isOther with _ | ⟨c, s1'⟩
      · exact absurd hne hd
      have hcmem : c ∈ s1 := by
        have : c ∈ s1.dropWhile isOther := by simp [hne]
        exact List.dropWhile_sublist isOther |>.mem this
      have hcq : c = '?' := by
        apply isOther_eq_false _ (fun h => h1 (h ▸ hcmem))
        have := List.head_dropWhile_not isOther s1 (by simp [hne])
        simpa [hne] using this
      subst hcq
      have hs1 : s1 = s1.takeWhile isOther ++ '?' :: s1' := by
        conv_lhs => rw [← List.takeWhile_append_dropWhile isOther s1, hne]
      have hall : ∀ a ∈ s1.takeWhile isOther, isOther a = true :=
        fun a ha => List.mem_takeWhile_imp ha
      have hcs : s1 ++ '\'' :: body ++ '\'' :: s2 =
          s1.takeWhile isOther ++
            '?' :: (s1' ++ '\'' :: body ++ '\'' :: s2) := by
        conv_lhs => rw [hs1]
        simp [List.append_assoc]
      have htake : (s1 ++ '\'' :: body ++ '\'' :: s2).takeWhile isOther =
          s1.takeWhile isOther := by
        rw [hcs, List.takeWhile_append_of_pos hall,
          List.takeWhile_cons_of_neg (by simp [isOther_marker])]
        simp
      have hdrop : (s1 ++ '\'' :: body ++ '\'' :: s2).dropWhile isOther =
          '?' :: (s1' ++ '\'' :: body ++ '\'' :: s2) := by
        rw [hcs, List.dropWhile_append_of_pos hall,
          List.dropWhile_cons_of_neg (by simp [isOther_marker])]
      have hrestlen : (s1' ++ '\'' :: body ++ '\'' :: s2).length ≤ g := by
        have := congrArg List.length hcs
        simp only [List.length_append, List.length_cons] at this hlen ⊢
        omega
      have h1' : '\'' ∉ s1' := by
        intro h
        exact h1 (hs1 ▸ List.mem_append_right _ (List.mem_cons_of_mem _ h))
      have ihr := ih s1' body s2 (idx + 1) hrestlen h1' h2 hwf
      rcases Option.map_eq_some'.mp ihr with ⟨ss, hss, hjoin⟩
      have hlhs : parseSpansF (g + 1) (s1 ++ '\'' :: body ++ '\'' :: s2) =
          some (s1.takeWhile isOther :: ['?'] :: ss) := by
        rw [parseSpansF, hdrop, parseTailF_marker, hss]
        rw [htake]
        rfl
      rw [hlhs, Option.map_some']
      rw [replaceJoin_cons_other takeWhile_ne_marker, replaceJoin_cons_marker,
        hjoin]
      have hrhs1 : naiveConvert idx s1 =
          s1.takeWhile isOther ++ phToken idx ++ naiveConvert (idx + 1) s1' := by
        conv_lhs => rw [hs1]
        rw [naiveConvert_append_no_marker no_marker_of_takeWhile]
        simp [naiveConvert]
      have hcount : countMarkers s1 = 1 + countMarkers s1' := by
        conv_lhs => rw [hs1]
        simp only [countMarkers, List.countP_append, List.countP_cons]
        have : List.countP (fun c => decide (c = '?')) (s1.takeWhile isOther) = 0 := by
          simpa [countMarkers] using countMarkers_eq_zero (@no_marker_of_takeWhile s1)
        simp [this]
        omega
      rw [hrhs1, hcount]
      have : idx + (1 + countMarkers s1') = idx + 1 + countMarkers s1' := by omega
      rw [this]
      simp [List.append_assoc]
    · -- the prefix is marker-free: the literal is the next span
      have hall : ∀ a ∈ s1, isOther a = true :=
        fun a ha => isOther_of_ne (fun h => h1 (h ▸ ha)) (fun h => hm (h ▸ ha))
      have hnm : ∀ c ∈ s1, c ≠ '?' := fun c hc h => hm (h ▸ hc)
      have hshape : s1 ++ '\'' :: body ++ '\'' :: s2 =
          s1 ++ '\'' :: (body ++ '\'' :: s2) := by
        simp
      have htake : (s1 ++ '\'' :: body ++ '\'' :: s2).takeWhile isOther = s1 := by
        rw [hshape, List.takeWhile_append_of_pos hall,
          List.takeWhile_cons_of_neg (by simp [isOther_quote])]
        simp
      have hdrop : (s1 ++ '\'' :: body ++ '\'' :: s2).dropWhile isOther =
          '\'' :: (body ++ '\'' :: s2) := by
        rw [hshape, List.dropWhile_append_of_pos hall,
          List.dropWhile_cons_of_neg (by simp [isOther_quote])]
      have hscan : scanStrBody false (body ++ '\'' :: s2) = some (body, s2) :=
        scanStrBody_of_wellFormed body false hwf s2
      have hs2len : s2.length ≤ g := by
        simp only [List.length_append, List.length_cons] at hlen
        omega
      have ihs2 := convert_noquote_aux g s2 idx hs2len h2
      rcases Option.map_eq_some'.mp ihs2 with ⟨ss, hss, hjoin⟩
      have hlhs : parseSpansF (g + 1) (s1 ++ '\'' :: body ++ '\'' :: s2) =
          some (s1 :: ('\'' :: body ++ ['\'']) :: ss) := by
        rw [parseSpansF, hdrop, parseTailF_str hscan, hss]
        rw [htake]
        rfl
      rw [hlhs, Option.map_some']
      have hs1ne : s1 ≠ ['?'] := by
        intro h
        exact hm (by simp [h])
      rw [replaceJoin_cons_other hs1ne, replaceJoin_cons_other lit_ne_marker,
        hjoin]
      rw [naiveConvert_no_marker hnm, countMarkers_eq_zero hnm]
      simp [List.append_assoc]

/-- C3: for every statement of the form quote-free prefix, then a properly
quoted (possibly backslash-escaped) single-quoted string literal, then a
quote-free suffix, ConvertPH never rewrites a marker inside the literal
and copies the literal's exact text (escapes and delimiting quotes
included) unchanged, while the markers outside the literal are rewritten
with consecutive 1-based indices. -/
theorem convertPH_string_literal (s1 body s2 : List Char)
    (h1 : '\'' ∉ s1) (h2 : '\'' ∉ s2) (hwf : wellFormedBody body = true) :
    ConvertPHL (s1 ++ '\'' :: body ++ '\'' :: s2) =
      some (naiveConvert 1 s1 ++ '\'' :: body ++
        '\'' :: naiveConvert (1 + countMarkers s1) s2) := by
  have := convert_literal_aux (s1 ++ '\'' :: body ++ '\'' :: s2).length
    s1 body s2 1 (Nat.le_refl _) h1 h2 hwf
  simpa [ConvertPHL, matchPH, ReplacePH] using this

/-- Witness for C2 at a concrete quote-free statement with two markers. -/
theorem convertPH_no_quotes_witness :
    ConvertPH "SELECT * FROM t WHERE a=? AND b=?" =
      some "SELECT * FROM t WHERE a=$1 AND b=$2" := by
  have h := convertPH_no_quotes ("SELECT * FROM t WHERE a=? AND b=?").data
    (by decide)
  simp only [ConvertPH, h, Option.map_some']
  decide

/-- Witness for C3 at the specification's concrete scenario: the statement
with a backslash-escaped quote and a marker inside the literal. -/
theorem convertPH_string_literal_witness :
    ConvertPH "SELECT * FROM t WHERE a=? AND b='esc\\'aped?' AND c=?" =
      some "SELECT * FROM t WHERE a=$1 AND b='esc\\'aped?' AND c=$2" := by
  have h := convertPH_string_literal
    ("SELECT * FROM t WHERE a=? AND b=").data ("esc\\'aped?").data
    (" AND c=?").data (by decide) (by decide) (by decide)
  have hfull : ("SELECT * FROM t WHERE a=? AND b='esc\\'aped?' AND c=?").data =
      ("SELECT * FROM t WHERE a=? AND b=").data ++
        '\'' :: ("esc\\'aped?").data ++ '\'' :: (" AND c=?").data := by
    decide
  simp only [ConvertPH, hfull, h, Option.map_some']
  decide

/-- C7 (code evaluation): the source of ConvertPH consults the global
phConversions cache but contains no write to it, so the cache that comes
back is the cache that went in, on every path — the first translation of a
statement is NOT stored, contradicting the claimed memoization; a repeat
call merely recomputes the same result. The second conjunct evaluates the
failing input: translating "SELECT ?" against an empty cache leaves the
cache empty. -/
theorem convertPH_cache_never_stored :
    (∀ (cache : List (String × String)) (q : String),
        (ConvertPHSt cache q).map (fun p => p.2) =
          (ConvertPHSt cache q).map (fun _ => cache)) ∧
      ConvertPHSt [] "SELECT ?" = some ("SELECT $1", []) := by
  constructor
  · intro cache q
    unfold ConvertPHSt
    by_cases h : lookupCache cache q ≠ ""
    · simp [h]
    · simp only [h, if_neg, ite_false]
      rcases ConvertPHL q.data with _ | r <;> simp
  · decide

/-! ## error.go — error taxonomy

Go `error` values are modelled by `GoError`:
* `pqError code message constraint` models a `*pq.Error` with those fields;
* `sentinel name` models a package-level `errors.New` value compared by
  identity (`ERR_DUPLICATE_ENTRY`, `ERR_SERIAL_TX`, `ERR_OTHER`);
* `simple msg` models any other dynamically created error
  (e.g. `fmt.Errorf`).
(Two `errors.New` values with the same text are distinct in Go but equal
in this model; no claim depends on that distinction.)
A Go `nil` error is `Option.none`.
-/

inductive GoError where
  | pqError (code : String) (message : String) (constraint : String)
  | sentinel (name : String)
  | simple (msg : String)
deriving DecidableEq, Repr

def ERR_DUPLICATE_ENTRY : GoError := GoError.sentinel "ERR_DUPLICATE_ENTRY"

def ERR_SERIAL_TX : GoError := GoError.sentinel "ERR_SERIAL_TX"

def ERR_OTHER : GoError := GoError.sentinel "ERR_OTHER"

/-- `GetErrorType` on a non-nil error: a `*pq.Error` is classified by its
code (23505 duplicate entry, 40001 serialization failure, anything else
opaque); any other error is returned unchanged. -/
def GetErrorType1 : GoError → GoError
  | GoError.pqError code _ _ =>
    if code = "23505" then ERR_DUPLICATE_ENTRY
    else if code = "40001" then ERR_SERIAL_TX
    else ERR_OTHER
  | e => e

/-- `GetErrorType` including the `nil` case. -/
def GetErrorType : Option GoError → Option GoError
  | none => none
  | some e => some (GetErrorType1 e)

/-! ## modeldb.go — record metadata registry -/

/-- A Go struct field as seen by reflection: its name, the name of its
type, and the value of its `db` struct tag (`""` when absent). -/
structure GoStructField where
  name : String
  typeName : String
  dbTag : String
deriving DecidableEq, Repr

/-- `ModelField`: the embedded `reflect.StructField` is represented by the
name, type name and tag; `column`, `null`, `autoinc` come from the tag. -/
structure ModelField where
  name : String
  typeName : String
  tag : String
  column : String
  null : Bool
  autoinc : Bool
deriving DecidableEq, Repr

/-- `parseDBTag`: split on commas; the first element is the column name,
the remaining elements may carry the `null` and `autoinc` flags. -/
def parseDBTag (tag : String) : String × Bool × Bool :=
  let s := tag.splitOn ","
  (s.headD "", s.tail.contains "null", s.tail.contains "autoinc")

/-- The first loop of `GetModelInfoFromType`: keep exactly the fields whose
`db` tag is non-empty, parsing the tag of each. -/
def buildFields (sfs : List GoStructField) : List ModelField :=
  (sfs.filter (fun sf => sf.dbTag ≠ "")).map (fun sf =>
    let p := parseDBTag sf.dbTag
    ⟨sf.name, sf.typeName, sf.dbTag, p.1, p.2.1, p.2.2⟩)

/-- One iteration of the second loop of `GetModelInfoFromType`: append the
column name to `fieldNames`; when the field is not autoincrement, also
append it to `fieldInsertNames` and append the next indexed token
(`len(ph)+1`) to `ph`. -/
def fieldsLoopStep (acc : List String × List String × List String)
    (field : ModelField) : List String × List String × List String :=
  let fieldName := (parseDBTag field.tag).1
  if !field.autoinc then
    (acc.1 ++ [fieldName], acc.2.1 ++ [fieldName],
      acc.2.2 ++ ["$" ++ toString (acc.2.2.length + 1)])
  else
    (acc.1 ++ [fieldName], acc.2.1, acc.2.2)

/-- The second loop of `GetModelInfoFromType`, producing
`(fieldNames, fieldInsertNames, ph)`. -/
def fieldsLoop (fields : List ModelField) : List String × List String × List String :=
  fields.foldl fieldsLoopStep ([], [], [])

/-- `ModelInfo` (the descriptor): table name, mapped fields, and the four
derived strings. -/
structure ModelInfoL where
  tableName : String
  fields : List ModelField
  fieldsSimple : String
  fieldsPrefixed : String
  fieldsInsert : String
  placeholders : String
deriving DecidableEq, Repr

/-- The construction part of `GetModelInfoFromType` for a struct type. -/
def buildModelInfo (modelName : String) (sfs : List GoStructField) : ModelInfoL :=
  let tableName := modelName.toLower
  let fields := buildFields sfs
  let r := fieldsLoop fields
  { tableName := tableName
    fields := fields
    fieldsSimple := String.intercalate ", " r.1
    fieldsPrefixed := tableName ++ "." ++
      String.intercalate (", " ++ tableName ++ ".") r.1
    fieldsInsert := String.intercalate ", " r.2.1
    placeholders := String.intercalate ", " r.2.2 }

/-- A Go type as relevant to `GetModelInfoFromType`: a pointer type, a
struct type (with the flag of whether it implements `sql.Scanner`), or any
other kind. -/
inductive GoType where
  | ptr (elem : GoType)
  | structT (name : String) (fields : List GoStructField) (implScanner : Bool)
  | basic (kindName : String)

/-- `GetModelInfoFromType`: unwrap one pointer level; a non-struct kind
yields no descriptor (`return nil`); a struct implementing `sql.Scanner`
yields no descriptor; otherwise the descriptor is built. (The process-wide
`allModelInfos` cache, keyed by type name, is consulted and filled in the
source before construction; the claims here do not concern caching, so the
construction is modelled as a pure function. The source contains no
panicking path.) -/
def GetModelInfoFromType (t : GoType) : Option ModelInfoL :=
  let t2 := match t with
    | GoType.ptr e => e
    | other => other
  match t2 with
  | GoType.structT name sfs implScanner =>
    if implScanner then none else some (buildModelInfo name sfs)
  | _ => none

/-! ## modeldb.go — argument expander -/

/-- A database value: the scalar kinds used by the mapped fields, plus the
explicit null (Go `nil`). -/
inductive Value where
  | vStr (s : String)
  | vInt (i : Int)
  | vNull
deriving DecidableEq, Repr

/-- `reflect.Zero(field.Type).Interface()` for the modelled field kinds.
Unmodelled kinds are given `vNull` as zero value. -/
def zeroValue : String → Value
  | "string" => Value.vStr ""
  | "int64" => Value.vInt 0
  | _ => Value.vNull

/-- `FieldValues`: walk the descriptor fields together with the record's
field values (in descriptor order): an autoincrement field is skipped (the
zero-value check on it is commented out in the source); a nullable field
holding its type's zero value contributes an explicit null; any other
field contributes its literal value. -/
def FieldValues : List ModelField → List Value → List Value
  | [], _ => []
  | _ :: _, [] => []
  | f :: fs, v :: vs =>
    if f.autoinc then FieldValues fs vs
    else if f.null ∧ v = zeroValue f.typeName then
      Value.vNull :: FieldValues fs vs
    else v :: FieldValues fs vs

/-- An argument to Exec/Query: either a value whose type yields no
descriptor (a primitive, or a Scanner — passed through), or a record whose
descriptor fields and field values (in descriptor order) are given. -/
inductive Arg where
  | scalar (v : Value)
  | record (fields : List ModelField) (vals : List Value)
deriving DecidableEq, Repr

/-- `expandArgs`: each argument with no record descriptor is appended
unchanged; each record argument is replaced in place by its
`FieldValues`. -/
def expandArgs : List Arg → List Value
  | [] => []
  | Arg.scalar v :: rest => v :: expandArgs rest
  | Arg.record fs vs :: rest => FieldValues fs vs ++ expandArgs rest

/-! ## modeldb.go — row materializer (`scanStruct`)

`scanStruct` flattens each record destination into one scan target per
descriptor field. For a nullable field a stack-local nullable wrapper
(`NullString`/`NullInt64`), initialized from the field's current value, is
allocated and its address is handed to `Scan`; for a non-nullable field
the field's own address is handed over. The source never copies a
wrapper's post-scan contents back into the field, so after `Scan` returns
a nullable field still holds its pre-scan value while a direct field holds
the row's value; `writeScan` models exactly that outcome.
-/

/-- The kind of scan target handed to the underlying `Scan` for one
descriptor field. -/
inductive TargetKind where
  | direct
  | nullStringWrap (init : String)
  | nullInt64Wrap (init : Int)
deriving DecidableEq, Repr

/-- The scan-target list `scanStruct` builds for one record destination:
nullable string/int64 fields get a nullable wrapper initialized with the
current field value; other nullable kinds panic (`none`); non-nullable
fields are scanned directly at their address. -/
def fieldTargets : List ModelField → List Value → Option (List TargetKind)
  | [], _ => some []
  | _ :: _, [] => none
  | f :: fs, v :: vs =>
    if f.null then
      if f.typeName = "string" then
        match v with
        | Value.vStr s => (fieldTargets fs vs).map (TargetKind.nullStringWrap s :: ·)
        | _ => none
      else if f.typeName = "int64" then
        match v with
        | Value.vInt i => (fieldTargets fs vs).map (TargetKind.nullInt64Wrap i :: ·)
        | _ => none
      else none
    else (fieldTargets fs vs).map (TargetKind.direct :: ·)

/-- The record's field values after a successful `Scan` of the given row
values, per the source: a non-nullable field receives the row value
through its address; a nullable field keeps its previous value, because
the row value was decoded into the local wrapper, which is then
discarded. -/
def writeScan : List ModelField → List Value → List Value → Option (List Value)
  | [], _, _ => some []
  | _ :: _, [], _ => none
  | _ :: _, _ :: _, [] => none
  | f :: fs, v :: vs, r :: rs =>
    if f.null then (writeScan fs vs rs).map (v :: ·)
    else (writeScan fs vs rs).map (r :: ·)

/-! ## modeldb.go — Begin and DoBegin -/

/-- `Begin(level)`: begin a transaction, then explicitly set the isolation
level, defaulting the empty string to READ COMMITTED. The pair returned
is (the statements executed on the new transaction, the result); the Bool
in the result is the `Finalized` flag of the returned `ModelTx` (always
`false` on success). `beginErr` and `execErr` are the environment's
answers for `db.Begin()` and `tx.Exec(...)`. -/
def Begin (beginErr execErr : Option GoError) (level : String) :
    List String × Except GoError Bool :=
  match beginErr with
  | some e => ([], Except.error e)
  | none =>
    let lvl := if level = "" then "READ COMMITTED" else level
    let stmt := "SET TRANSACTION ISOLATION LEVEL " ++ lvl
    match execErr with
    | some e => ([stmt], Except.error e)
    | none => ([stmt], Except.ok false)

/-- A Go panic value: an `error`, or any other value (formatted into an
error with `fmt.Errorf("%v", e)`). -/
inductive PanicVal where
  | errVal (e : GoError)
  | otherVal (s : String)
deriving DecidableEq, Repr

/-- `err, ok := e.(error); if !ok { err = fmt.Errorf("%v", e) }`. -/
def panicToError : PanicVal → GoError
  | PanicVal.errVal e => e
  | PanicVal.otherVal s => GoError.simple s

/-- How one invocation of the work unit `f` ends: a normal return or a
panic, in both cases together with whether `f` itself finalized the
transaction (committed or rolled back) before exiting. -/
inductive FOutcome where
  | normal (finalizedByF : Bool)
  | panicked (v : PanicVal) (finalizedByF : Bool)
deriving DecidableEq, Repr

/-- The environment of one iteration of DoBegin's retry loop: what
`Begin` returns, how `f` exits, and what `tx.Tx.Commit()` /
`tx.Tx.Rollback()` would return if invoked. -/
structure AttemptEnv where
  beginErr : Option GoError
  fOutcome : FOutcome
  commitErr : Option GoError
  rollbackErr : Option GoError
deriving DecidableEq, Repr

/-- The `retry` and `retErr` variables of DoBegin. -/
structure DeferState where
  retry : Bool
  retErr : Option GoError
deriving DecidableEq, Repr

/-- The deferred cleanup function of DoBegin, evaluated with the recovered
panic value (if any) and the transaction's `Finalized` flag at that
moment. Returns the updated `(retry, retErr)` state and whether the
implicit `tx.Tx.Rollback()` was invoked. On the panic path the rollback's
result is discarded (the source does not inspect it); on the no-panic path
a rollback failure is assigned to `retErr`. -/
def deferredCleanup (recovered : Option PanicVal) (finalized : Bool)
    (rollbackErr : Option GoError) (st : DeferState) : DeferState × Bool :=
  match recovered with
  | some v =>
    let rolled := !finalized
    let err := panicToError v
    if GetErrorType1 err = ERR_SERIAL_TX then (⟨true, st.retErr⟩, rolled)
    else (⟨false, some err⟩, rolled)
  | none =>
    if finalized then (st, false)
    else
      match rollbackErr with
      | some rbErr => (⟨false, some rbErr⟩, true)
      | none => (st, true)

/-- The body of DoBegin's inner closure after a successful `Begin`, up to
but excluding the deferred cleanup: call `f`; if it returns normally,
call `tx.Commit()` (which sets `Finalized` before delegating to the
backend) and classify its error. Returns the `(retry, retErr)` state, the
recovered panic value for the deferred function, and the transaction's
`Finalized` flag at exit (after a commit attempt it is always true). -/
def runBody (env : AttemptEnv) : DeferState × Option PanicVal × Bool :=
  match env.fOutcome with
  | FOutcome.panicked v fin => (⟨false, none⟩, some v, fin)
  | FOutcome.normal _ =>
    if GetErrorType env.commitErr = some ERR_SERIAL_TX then
      (⟨true, none⟩, none, true)
    else
      match env.commitErr with
      | some e => (⟨false, some e⟩, none, true)
      | none => (⟨false, none⟩, none, true)

/-- One iteration of DoBegin's loop: `Begin`, the closure body, the
deferred cleanup. `retry`/`retErr` are the loop-control results;
`rolledBack` records whether the implicit rollback ran; `committed`
records whether `tx.Commit()` was invoked. -/
structure AttemptResult where
  retry : Bool
  retErr : Option GoError
  rolledBack : Bool
  committed : Bool
deriving DecidableEq, Repr

def runAttempt (env : AttemptEnv) : AttemptResult :=
  match env.beginErr with
  | some e => ⟨false, some e, false, false⟩
  | none =>
    let b := runBody env
    let d := deferredCleanup b.2.1 b.2.2 env.rollbackErr b.1
    ⟨d.1.retry, d.1.retErr,
      d.2,
      match env.fOutcome with
      | FOutcome.normal _ => true
      | _ => false⟩

/-- `DoBegin` over a script of per-attempt environments: iterate while
`retry` is set; return the final `retErr` otherwise. `none` means the
script was exhausted while the loop was still retrying (the loop itself
has no retry limit). -/
def DoBegin : List AttemptEnv → Option (Option GoError)
  | [] => none
  | env :: rest =>
    let r := runAttempt env
    if r.retry then DoBegin rest else some r.retErr

/-- An attempt whose environment reports a serialization conflict from the
work unit (via panic) or from the commit. -/
def isConflictAttempt (env : AttemptEnv) : Prop :=
  env.beginErr = none ∧
  ((∃ v fin, env.fOutcome = FOutcome.panicked v fin ∧
      GetErrorType1 (panicToError v) = ERR_SERIAL_TX) ∨
   ((∃ fin, env.fOutcome = FOutcome.normal fin) ∧
      GetErrorType env.commitErr = some ERR_SERIAL_TX))

/-- A commit attempt that reports a serialization conflict. -/
def conflictEnvEx : AttemptEnv :=
  ⟨none, FOutcome.normal false,
    some (GoError.pqError "40001" "could not serialize access" ""), none⟩

/-- A clean attempt: work returns normally and the commit succeeds. -/
def commitOkEnvEx : AttemptEnv := ⟨none, FOutcome.normal false, none, none⟩

/-! ### Metadata registry lemmas -/

theorem fieldsLoop_foldl (fields : List ModelField) :
    ∀ ns is ph : List String,
      fields.foldl fieldsLoopStep (ns, is, ph) =
        (ns ++ fields.map (fun f => (parseDBTag f.tag).1),
         is ++ (fields.filter (fun f => !f.autoinc)).map
            (fun f => (parseDBTag f.tag).1),
         ph ++ (List.range ((fields.filter (fun f => !f.autoinc)).length)).map
            (fun i => "$" ++ toString (ph.length + i + 1))) := by
  induction fields with
  | nil =>
    intro ns is ph
    simp
  | cons f fs ih =>
    intro ns is ph
    rw [List.foldl_cons]
    by_cases ha : f.autoinc
    · have hstep : fieldsLoopStep (ns, is, ph) f =
          (ns ++ [(parseDBTag f.tag).1], is, ph) := by
        simp [fieldsLoopStep, ha]
      rw [hstep, ih, List.filter_cons_of_neg (by simp [ha])]
      simp
    · have hstep : fieldsLoopStep (ns, is, ph) f =
          (ns ++ [(parseDBTag f.tag).1], is ++ [(parseDBTag f.tag).1],
            ph ++ ["$" ++ toString (ph.length + 1)]) := by
        simp [fieldsLoopStep, ha]
      rw [hstep, ih, List.filter_cons_of_pos (by simp [ha])]
      refine congrArg₂ Prod.mk (by simp) (congrArg₂ Prod.mk (by simp) ?_)
      have hr : (List.range ((f :: fs.filter (fun f => !f.autoinc)).length)).map
            (fun i => "$" ++ toString (ph.length + i + 1)) =
          ("$" ++ toString (ph.length + 1)) ::
            (List.range ((fs.filter (fun f => !f.autoinc)).length)).map
              (fun i => "$" ++ toString (ph.length + 1 + i + 1)) := by
        rw [List.length_cons, List.range_succ_eq_map, List.map_cons,
          List.map_map]
        refine congrArg₂ List.cons rfl (List.map_congr_left ?_)
        intro i _
        have : ph.length + Nat.succ i + 1 = ph.length + 1 + i + 1 := by omega
        simp [Function.comp, this]
      rw [hr]
      simp

theorem length_filter_autoinc_split (fields : List ModelField) :
    (fields.filter (fun f => !f.autoinc)).length +
      (fields.filter (fun f => f.autoinc)).length = fields.length := by
  induction fields with
  | nil => simp
  | cons f fs ih =>
    by_cases ha : f.autoinc
    · rw [List.filter_cons_of_neg (by simp [ha]),
        List.filter_cons_of_pos (by simp [ha])]
      simp only [List.length_cons]
      omega
    · rw [List.filter_cons_of_pos (by simp [ha]),
        List.filter_cons_of_neg (by simp [ha])]
      simp only [List.length_cons]
      omega

/-- C6: for a record type with K mapped fields of which M are
autoincrement, the descriptor lists built by GetModelInfoFromType have:
full column list of K entries, insertable column list of K−M entries, and
placeholder fragment of K−M tokens; the insertable list is exactly the
non-autoincrement columns in descriptor order and the i-th placeholder
token is the (i+1)-indexed token, so the two are congruent in order; the
derived descriptor strings are the comma-joins of those lists. -/
theorem modelInfo_insert_placeholder_counts (name : String)
    (sfs : List GoStructField) :
    GetModelInfoFromType (GoType.structT name sfs false) =
        some (buildModelInfo name sfs) ∧
    (fieldsLoop (buildFields sfs)).1.length = (buildFields sfs).length ∧
    (fieldsLoop (buildFields sfs)).2.1.length =
      (buildFields sfs).length -
        ((buildFields sfs).filter (fun f => f.autoinc)).length ∧
    (fieldsLoop (buildFields sfs)).2.2.length =
      (fieldsLoop (buildFields sfs)).2.1.length ∧
    (fieldsLoop (buildFields sfs)).2.1 =
      ((buildFields sfs).filter (fun f => !f.autoinc)).map
        (fun f => (parseDBTag f.tag).1) ∧
    (fieldsLoop (buildFields sfs)).2.2 =
      (List.range (fieldsLoop (buildFields sfs)).2.1.length).map
        (fun i => "$" ++ toString (i + 1)) ∧
    (buildModelInfo name sfs).fieldsInsert =
      String.intercalate ", " (fieldsLoop (buildFields sfs)).2.1 ∧
    (buildModelInfo name sfs).placeholders =
      String.intercalate ", " (fieldsLoop (buildFields sfs)).2.2 ∧
    (buildModelInfo name sfs).fieldsSimple =
      String.intercalate ", " (fieldsLoop (buildFields sfs)).1 := by
  have hloop := fieldsLoop_foldl (buildFields sfs) [] [] []
  have hlen := length_filter_autoinc_split (buildFields sfs)
  have hfl : fieldsLoop (buildFields sfs) =
      ((buildFields sfs).map (fun f => (parseDBTag f.tag).1),
       ((buildFields sfs).filter (fun f => !f.autoinc)).map
          (fun f => (parseDBTag f.tag).1),
       (List.range (((buildFields sfs).filter (fun f => !f.autoinc)).length)).map
          (fun i => "$" ++ toString (i + 1))) := by
    rw [fieldsLoop, hloop]
    simp
  refine ⟨rfl, ?_, ?_, ?_, ?_, ?_, rfl, rfl, rfl⟩
  · rw [hfl]
    simp
  · rw [hfl]
    simp only [List.length_map]
    omega
  · rw [hfl]
    simp
  · rw [hfl]
  · rw [hfl]
    simp

/-! ### Argument expander: C5 -/

/-- C5: expandArgs leaves every argument with no record descriptor
unchanged in place, replaces every record argument in place by its
`FieldValues`, and `FieldValues` realizes the per-field rule: walk the
descriptor fields paired with the record's values in order, drop the
autoincrement fields, send a nullable field holding its type's zero value
as an explicit null, and send every other field's literal value. -/
theorem expandArgs_field_rules :
    (∀ (args1 args2 : List Arg) (v : Value),
        expandArgs (args1 ++ Arg.scalar v :: args2) =
          expandArgs args1 ++ v :: expandArgs args2) ∧
    (∀ (args1 args2 : List Arg) (fs : List ModelField) (vs : List Value),
        expandArgs (args1 ++ Arg.record fs vs :: args2) =
          expandArgs args1 ++ FieldValues fs vs ++ expandArgs args2) ∧
    (∀ (fs : List ModelField) (vs : List Value), fs.length = vs.length →
        FieldValues fs vs =
          ((fs.zip vs).filter (fun p => !p.1.autoinc)).map
            (fun p =>
              if p.1.null ∧ p.2 = zeroValue p.1.typeName then Value.vNull
              else p.2)) := by
  refine ⟨?_, ?_, ?_⟩
  · intro args1
    induction args1 with
    | nil => intro args2 v; rfl
    | cons a rest ih =>
      intro args2 v
      cases a with
      | scalar w => simp [expandArgs, ih]
      | record fs vs => simp [expandArgs, ih]
  · intro args1
    induction args1 with
    | nil => intro args2 fs vs; rfl
    | cons a rest ih =>
      intro args2 fs vs
      cases a with
      | scalar w => simp [expandArgs, ih]
      | record fs2 vs2 => simp [expandArgs, ih]
  · intro fs
    induction fs with
    | nil => intro vs _; cases vs <;> rfl
    | cons f ft ih =>
      intro vs hlen
      cases vs with
      | nil => simp at hlen
      | cons v vt =>
        have hlen2 : ft.length = vt.length := by
          simpa using hlen
        by_cases ha : f.autoinc
        · rw [List.zip_cons_cons, List.filter_cons_of_neg (by simp [ha])]
          simp [FieldValues, ha, ih vt hlen2]
        · rw [List.zip_cons_cons, List.filter_cons_of_pos (by simp [ha])]
          by_cases hz : f.null ∧ v = zeroValue f.typeName
          · simp [FieldValues, ha, hz, ih vt hlen2]
          · simp [FieldValues, ha, hz, ih vt hlen2]

/-- An autoincrement id field, a nullable string field and a plain string
field, as in the specification's concrete scenario. -/
def idFieldEx : ModelField := ⟨"Id", "int64", "id,autoinc", "id", false, true⟩

def emailFieldEx : ModelField :=
  ⟨"Email", "string", "email,null", "email", true, false⟩

def tokenFieldEx : ModelField := ⟨"Token", "string", "token", "token", false, false⟩

/-- Witness for C5: a record with an autoincrement id (omitted), a
nullable field at its zero value (sent as explicit null) and a plain
field (sent literally), plus one concrete evaluation showing a non-zero
nullable value passes through literally. -/
theorem expandArgs_field_rules_witness :
    FieldValues [idFieldEx, emailFieldEx, tokenFieldEx]
        [Value.vInt 7, Value.vStr "", Value.vStr "tok"] =
      (([idFieldEx, emailFieldEx, tokenFieldEx].zip
            [Value.vInt 7, Value.vStr "", Value.vStr "tok"]).filter
          (fun p => !p.1.autoinc)).map
        (fun p =>
          if p.1.null ∧ p.2 = zeroValue p.1.typeName then Value.vNull
          else p.2) ∧
    expandArgs [Arg.scalar (Value.vInt 3),
        Arg.record [idFieldEx, emailFieldEx, tokenFieldEx]
          [Value.vInt 7, Value.vStr "", Value.vStr "tok"]] =
      [Value.vInt 3, Value.vNull, Value.vStr "tok"] ∧
    expandArgs [Arg.record [idFieldEx, emailFieldEx, tokenFieldEx]
        [Value.vInt 7, Value.vStr "a@b.c", Value.vStr "tok"]] =
      [Value.vStr "a@b.c", Value.vStr "tok"] := by
  refine ⟨expandArgs_field_rules.2.2 _ _ (by decide), ?_, by decide⟩
  have h := expandArgs_field_rules.1 []
    [Arg.record [idFieldEx, emailFieldEx, tokenFieldEx]
      [Value.vInt 7, Value.vStr "", Value.vStr "tok"]] (Value.vInt 3)
  rw [List.nil_append] at h
  rw [h]
  decide

/-! ### Row materializer: C4 -/

/-- C4 (code evaluation): for a record with one nullable string field and
one plain string field, scanStruct builds exactly one nullable-wrapper
target and one direct-address target, in descriptor order — but after a
successful scan the nullable field still holds its pre-scan value
("old"), not the value decoded for its column ("new@example.com"): the
wrapper's contents are never copied back, contradicting the claim's
copy-back guarantee (and the source's own comment that the row's fields
are scanned into dest). -/
theorem scanStruct_nullable_not_copied_back :
    fieldTargets [emailFieldEx, tokenFieldEx]
        [Value.vStr "old", Value.vStr "oldtok"] =
      some [TargetKind.nullStringWrap "old", TargetKind.direct] ∧
    writeScan [emailFieldEx, tokenFieldEx]
        [Value.vStr "old", Value.vStr "oldtok"]
        [Value.vStr "new@example.com", Value.vStr "newtok"] =
      some [Value.vStr "old", Value.vStr "newtok"] ∧
    writeScan [emailFieldEx, tokenFieldEx]
        [Value.vStr "old", Value.vStr "oldtok"]
        [Value.vStr "new@example.com", Value.vStr "newtok"] ≠
      some [Value.vStr "new@example.com", Value.vStr "newtok"] := by
  decide

/-! ### Metadata registry error behavior: C8 -/

/-- C8 counterexample: for a non-struct type (`int`), GetModelInfoFromType
does not fail fatally — the source contains no panicking path — it
returns the ordinary no-descriptor value `nil`, exactly the same result
as for a struct type implementing the scan protocol. -/
theorem getModelInfo_nonstruct_returns_nil_cex :
    GetModelInfoFromType (GoType.basic "int") = none ∧
    GetModelInfoFromType (GoType.structT "nullstring" [] true) = none ∧
    GetModelInfoFromType (GoType.basic "int") =
      GetModelInfoFromType (GoType.structT "nullstring" [] true) :=
  ⟨rfl, rfl, rfl⟩

/-- C8 amended: GetModelInfoFromType returns no descriptor (nil — a
normal return, not a fatal failure) both when the given type is not a
structured record type (any non-struct kind, including an unwrapped
double pointer) and when the type implements the scan protocol; for an
ordinary struct type it returns the built descriptor. -/
theorem getModelInfo_no_descriptor_amended :
    (∀ kindName, GetModelInfoFromType (GoType.basic kindName) = none) ∧
    (∀ t, GetModelInfoFromType (GoType.ptr (GoType.ptr t)) = none) ∧
    (∀ name sfs, GetModelInfoFromType (GoType.structT name sfs true) = none) ∧
    (∀ name sfs,
        GetModelInfoFromType (GoType.ptr (GoType.structT name sfs true)) = none) ∧
    (∀ name sfs, GetModelInfoFromType (GoType.structT name sfs false) =
        some (buildModelInfo name sfs)) :=
  ⟨fun _ => rfl, fun _ => rfl, fun _ _ => rfl, fun _ _ => rfl, fun _ _ => rfl⟩

/-! ### Begin: C10 -/

/-- C10: Begin with the empty isolation level explicitly executes
SET TRANSACTION ISOLATION LEVEL READ COMMITTED on the new transaction
(the empty string is replaced by the default rather than left to the
backend), and any non-empty level is set verbatim. -/
theorem begin_isolation_level :
    (∀ execErr : Option GoError,
        (Begin none execErr "").1 =
          ["SET TRANSACTION ISOLATION LEVEL READ COMMITTED"]) ∧
    (∀ (execErr : Option GoError) (level : String), level ≠ "" →
        (Begin none execErr level).1 =
          ["SET TRANSACTION ISOLATION LEVEL " ++ level]) := by
  constructor
  · intro execErr
    cases execErr <;> rfl
  · intro execErr level h
    cases execErr <;> simp [Begin, h]

/-- Witness for C10 at the empty level and at SERIALIZABLE. -/
theorem begin_isolation_level_witness :
    (Begin none none "").1 =
      ["SET TRANSACTION ISOLATION LEVEL READ COMMITTED"] ∧
    (Begin none none "SERIALIZABLE").1 =
      ["SET TRANSACTION ISOLATION LEVEL SERIALIZABLE"] := by
  refine ⟨begin_isolation_level.1 none, ?_⟩
  have h := begin_isolation_level.2 none "SERIALIZABLE" (by decide)
  rw [h]
  rfl

/-! ### DoBegin retry loop: C1 and C9 -/

theorem runAttempt_retErr_not_serial (env : AttemptEnv) (e : GoError)
    (hb : ∀ e2, env.beginErr = some e2 → GetErrorType1 e2 ≠ ERR_SERIAL_TX)
    (h : (runAttempt env).retErr = some e) :
    GetErrorType1 e ≠ ERR_SERIAL_TX := by
  rcases env with ⟨be, fo, ce, re⟩
  cases be with
  | some e2 =>
    simp only [runAttempt] at h
    exact (Option.some.inj h) ▸ hb e2 rfl
  | none =>
    cases fo with
    | panicked v fin =>
      by_cases hs : GetErrorType1 (panicToError v) = ERR_SERIAL_TX
      · simp [runAttempt, runBody, deferredCleanup, hs] at h
      · simp [runAttempt, runBody, deferredCleanup, hs] at h
        exact h ▸ hs
    | normal fin =>
      by_cases hs : GetErrorType ce = some ERR_SERIAL_TX
      · simp [runAttempt, runBody, deferredCleanup, hs] at h
      · cases ce with
        | none => simp [runAttempt, runBody, deferredCleanup, hs] at h
        | some ec =>
          simp [runAttempt, runBody, deferredCleanup, hs] at h
          intro hcon
          exact hs (by simp [GetErrorType, h, hcon])

/-- C1: a serialization conflict reported by the work unit (via panic) or
by the commit makes the attempt retry without surfacing anything
(conjunct 1); the loop stops with a nil result exactly when the work unit
returned normally and the commit succeeded (conjunct 2); a mid-work
conflict panic on an unfinalized transaction retries after rolling the
transaction back (conjunct 3; a commit conflict needs no rollback since
the commit attempt itself finalizes the transaction); as long as Begin
itself never produces a serialization-conflict error — the claim's two
conflict sources are the work unit and the commit — any error surfaced by
DoBegin is not a serialization conflict (conjunct 4); and any number of
consecutive conflicts followed by one clean commit ends with a nil result:
the loop has no retry limit (conjunct 5). -/
theorem doBegin_serialization_retry :
    (∀ env : AttemptEnv, isConflictAttempt env →
        (runAttempt env).retry = true ∧ (runAttempt env).retErr = none) ∧
    (∀ env : AttemptEnv, (runAttempt env).retry = false →
        ((runAttempt env).retErr = none ↔
          env.beginErr = none ∧
            (∃ fin, env.fOutcome = FOutcome.normal fin) ∧
            env.commitErr = none)) ∧
    (∀ (env : AttemptEnv) (v : PanicVal), env.beginErr = none →
        env.fOutcome = FOutcome.panicked v false →
        GetErrorType1 (panicToError v) = ERR_SERIAL_TX →
        (runAttempt env).retry = true ∧ (runAttempt env).rolledBack = true) ∧
    (∀ (envs : List AttemptEnv) (res : GoError),
        (∀ env ∈ envs, ∀ e, env.beginErr = some e →
          GetErrorType1 e ≠ ERR_SERIAL_TX) →
        DoBegin envs = some (some res) →
        GetErrorType1 res ≠ ERR_SERIAL_TX) ∧
    (∀ n : Nat,
        DoBegin (List.replicate n conflictEnvEx ++ [commitOkEnvEx]) =
          some none) := by
  refine ⟨?_, ?_, ?_, ?_, ?_⟩
  · rintro ⟨be, fo, ce, re⟩ ⟨hb, hcase⟩
    simp only at hb
    subst hb
    rcases hcase with ⟨v, fin, hfo, hs⟩ | ⟨⟨fin, hfo⟩, hs⟩ <;>
      simp only at hfo <;> subst hfo <;>
      simp [runAttempt, runBody, deferredCleanup, hs]
  · rintro ⟨be, fo, ce, re⟩ hretry
    cases be with
    | some e2 => simp [runAttempt]
    | none =>
      cases fo with
      | panicked v fin =>
        by_cases hs : GetErrorType1 (panicToError v) = ERR_SERIAL_TX
        · simp [runAttempt, runBody, deferredCleanup, hs] at hretry
        · simp [runAttempt, runBody, deferredCleanup, hs]
      | normal fin =>
        by_cases hs : GetErrorType ce = some ERR_SERIAL_TX
        · simp [runAttempt, runBody, deferredCleanup, hs] at hretry
        · cases ce with
          | none => simp [runAttempt, runBody, deferredCleanup, hs]
          | some ec => simp [runAttempt, runBody, deferredCleanup, hs]
  · rintro ⟨be, fo, ce, re⟩ v hb hfo hs
    simp only at hb hfo
    subst hb
    subst hfo
    simp [runAttempt, runBody, deferredCleanup, hs]
  · intro envs
    induction envs with
    | nil =>
      intro res _ hrun
      simp [DoBegin] at hrun
    | cons env rest ih =>
      intro res hb hrun
      rw [DoBegin] at hrun
      by_cases hretry : (runAttempt env).retry = true
      · rw [if_pos hretry] at hrun
        exact ih res (fun e2 hm => hb e2 (List.mem_cons_of_mem env hm)) hrun
      · rw [if_neg hretry] at hrun
        exact runAttempt_retErr_not_serial env res
          (hb env (List.mem_cons_self env rest)) (Option.some.inj hrun)
  · intro n
    induction n with
    | zero =>
      simp only [List.replicate, List.nil_append]
      decide
    | succ n ih =>
      rw [List.replicate_succ, List.cons_append, DoBegin,
        if_pos (by decide : (runAttempt conflictEnvEx).retry = true)]
      exact ih

/-- Witness for C1: the concrete commit-conflict attempt retries and
surfaces nothing; a concrete panic-conflict attempt on an unfinalized
transaction retries after rolling back; two conflicting attempts followed
by a clean one end with a nil result; and a run surfacing a non-conflict
panic error never surfaces a conflict. -/
theorem doBegin_serialization_retry_witness :
    (runAttempt conflictEnvEx).retry = true ∧
    (runAttempt conflictEnvEx).retErr = none ∧
    (runAttempt ⟨none, FOutcome.panicked (PanicVal.errVal ERR_SERIAL_TX) false,
        none, none⟩).retry = true ∧
    (runAttempt ⟨none, FOutcome.panicked (PanicVal.errVal ERR_SERIAL_TX) false,
        none, none⟩).rolledBack = true ∧
    DoBegin (List.replicate 2 conflictEnvEx ++ [commitOkEnvEx]) = some none ∧
    GetErrorType1 ERR_OTHER ≠ ERR_SERIAL_TX := by
  have hconf : isConflictAttempt conflictEnvEx :=
    ⟨rfl, Or.inr ⟨⟨false, rfl⟩, by decide⟩⟩
  have h1 := doBegin_serialization_retry.1 conflictEnvEx hconf
  have h3 := doBegin_serialization_retry.2.2.1
    ⟨none, FOutcome.panicked (PanicVal.errVal ERR_SERIAL_TX) false, none, none⟩
    (PanicVal.errVal ERR_SERIAL_TX) rfl rfl (by decide)
  have h5 := doBegin_serialization_retry.2.2.2.2 2
  have h4 := doBegin_serialization_retry.2.2.2.1
    [⟨none, FOutcome.panicked (PanicVal.errVal ERR_OTHER) false, none, none⟩]
    ERR_OTHER
    (by
      intro env hm e he
      rw [List.mem_singleton] at hm
      subst hm
      exact Option.noConfusion he)
    (by decide)
  exact ⟨h1.1, h1.2, h3.1, h3.2, h5, h4⟩

/-- A work unit that panics with a non-conflict error while the
transaction is unfinalized, in an environment where the implicit rollback
itself fails. -/
def rbFailEnv : AttemptEnv :=
  ⟨none, FOutcome.panicked (PanicVal.errVal (GoError.simple "boom")) false,
    none, some (GoError.simple "rollback failed")⟩

/-- The same attempt with a succeeding rollback. -/
def rbOkEnv : AttemptEnv :=
  ⟨none, FOutcome.panicked (PanicVal.errVal (GoError.simple "boom")) false,
    none, none⟩

/-- C9 counterexample: on the panic exit path the implicit rollback runs
(first conjunct) and fails (second conjunct), yet the attempt's outcome is
byte-identical to the outcome with a succeeding rollback (third conjunct):
the rollback failure is discarded, not escalated — the surfaced error is
the work unit's own panic error, and the rollback error appears nowhere. -/
theorem doBegin_rollback_failure_ignored_cex :
    (runAttempt rbFailEnv).rolledBack = true ∧
    rbFailEnv.rollbackErr = some (GoError.simple "rollback failed") ∧
    runAttempt rbFailEnv = runAttempt rbOkEnv ∧
    (runAttempt rbFailEnv).retErr = some (GoError.simple "boom") ∧
    (runAttempt rbFailEnv).retErr ≠ some (GoError.simple "rollback failed") := by
  decide

/-- C9 amended: after a successful Begin, the implicit rollback runs
exactly when the work unit exits by panic with the transaction not yet
finalized (on the normal path the commit attempt always finalizes the
transaction first, so the cleanup's rollback-escalation branch never
runs); and on that panic path the attempt's result does not depend on the
rollback's error at all — a failed implicit rollback is silently
discarded, not escalated. -/
theorem doBegin_cleanup_amended (env : AttemptEnv) (hb : env.beginErr = none) :
    ((runAttempt env).rolledBack = true ↔
      ∃ v, env.fOutcome = FOutcome.panicked v false) ∧
    (∀ v, env.fOutcome = FOutcome.panicked v false →
      runAttempt env = runAttempt ⟨none, env.fOutcome, env.commitErr, none⟩) ∧
    (∀ fin, env.fOutcome = FOutcome.normal fin →
      (runAttempt env).rolledBack = false) := by
  rcases env with ⟨be, fo, ce, re⟩
  simp only at hb
  subst hb
  cases fo with
  | normal fin =>
    refine ⟨?_, ?_, ?_⟩
    · by_cases hs : GetErrorType ce = some ERR_SERIAL_TX
      · simp [runAttempt, runBody, deferredCleanup, hs]
      · cases ce <;> simp [runAttempt, runBody, deferredCleanup, hs]
    · intro v hv
      exact absurd hv (by simp)
    · intro fin2 _
      by_cases hs : GetErrorType ce = some ERR_SERIAL_TX
      · simp [runAttempt, runBody, deferredCleanup, hs]
      · cases ce <;> simp [runAttempt, runBody, deferredCleanup, hs]
  | panicked v fin =>
    cases fin with
    | true =>
      refine ⟨?_, ?_, ?_⟩
      · by_cases hs : GetErrorType1 (panicToError v) = ERR_SERIAL_TX <;>
          simp [runAttempt, runBody, deferredCleanup, hs]
      · intro v2 hv2
        exact absurd hv2 (by simp)
      · intro fin2 hfin2
        exact absurd hfin2 (by simp)
    | false =>
      refine ⟨?_, ?_, ?_⟩
      · by_cases hs : GetErrorType1 (panicToError v) = ERR_SERIAL_TX <;>
          simp_all [runAttempt, runBody, deferredCleanup, hs]
      · intro v2 _
        by_cases hs : GetErrorType1 (panicToError v) = ERR_SERIAL_TX <;>
          simp [runAttempt, runBody, deferredCleanup, hs]
      · intro fin2 hfin2
        exact absurd hfin2 (by simp)

/-- Witness for C9's amended theorem at the concrete failing-rollback
attempt. -/
theorem doBegin_cleanup_amended_witness :
    (runAttempt rbFailEnv).rolledBack = true ∧
    runAttempt rbFailEnv = runAttempt rbOkEnv := by
  have h := doBegin_cleanup_amended rbFailEnv rfl
  refine ⟨h.1.mpr ⟨PanicVal.errVal (GoError.simple "boom"), rfl⟩, ?_⟩
  exact h.2.1 (PanicVal.errVal (GoError.simple "boom")) rfl

end ModelDB
